import Mathlib

/-!
Verification of the rendering core of a recursive path tracer written in Rust.

Modelling conventions:
* Rust `f64` values are modelled as real numbers (`ℝ`).  Interval bounds are
  modelled as extended reals (`EReal`) because the program stores
  `f64::INFINITY` in interval bounds (`utility.rs`: `INFINITY`, `EMPTY`,
  `UNIVERSE`, and the `(0.001, INFINITY)` interval used by `ray_color`).
  IEEE NaN behaviour is outside the model; theorems that depend on it carry
  nonzero-direction / nonzero-radius side conditions.
* Division by zero in `ℝ` yields `0` (in `f64` it yields NaN or ±∞); the
  theorems below avoid relying on this except where explicitly noted.
* Randomness (`rand::thread_rng`) is modelled by passing the stream of drawn
  values, or the scatter outcome, as an explicit oracle argument.
-/

open scoped Classical

noncomputable section

namespace Tracer

/-- Three-component real vector, from `vec3.rs` (`struct Vec3 { e: [f64; 3] }`).
The three array slots are modelled as the fields `x`, `y`, `z`, matching the
accessors `x()`, `y()`, `z()`. -/
structure Vec3 where
  x : ℝ
  y : ℝ
  z : ℝ

/-- `Vec3::new()`: the zero vector. -/
def Vec3.new : Vec3 := ⟨0, 0, 0⟩

/-- `Vec3::length_squared`. -/
def Vec3.length_squared (v : Vec3) : ℝ := v.x * v.x + v.y * v.y + v.z * v.z

/-- `Vec3::length`. -/
noncomputable def Vec3.length (v : Vec3) : ℝ := Real.sqrt v.length_squared

/-- `impl ops::Add for Vec3`. -/
instance : Add Vec3 := ⟨fun a b => ⟨a.x + b.x, a.y + b.y, a.z + b.z⟩⟩

/-- `impl ops::Sub for Vec3`. -/
instance : Sub Vec3 := ⟨fun a b => ⟨a.x - b.x, a.y - b.y, a.z - b.z⟩⟩

/-- `impl ops::Neg for Vec3`. -/
instance : Neg Vec3 := ⟨fun a => ⟨-a.x, -a.y, -a.z⟩⟩

/-- `impl ops::Mul<f64> for Vec3` (vector times scalar). -/
instance : HMul Vec3 ℝ Vec3 := ⟨fun a k => ⟨a.x * k, a.y * k, a.z * k⟩⟩

/-- `impl ops::Mul<Vec3> for f64` (scalar times vector). -/
instance : HMul ℝ Vec3 Vec3 := ⟨fun k a => ⟨a.x * k, a.y * k, a.z * k⟩⟩

/-- `impl ops::Mul<Vec3> for Vec3` (component-wise product). -/
instance : Mul Vec3 := ⟨fun a b => ⟨a.x * b.x, a.y * b.y, a.z * b.z⟩⟩

/-- `impl ops::Div<f64> for Vec3` (component-wise division by a scalar). -/
instance : HDiv Vec3 ℝ Vec3 := ⟨fun a k => ⟨a.x / k, a.y / k, a.z / k⟩⟩

/-- `dot` from `vec3.rs`: fold of the component products starting from `0.0`. -/
def dot (lhs rhs : Vec3) : ℝ := 0 + lhs.x * rhs.x + lhs.y * rhs.y + lhs.z * rhs.z

/-- `cross` from `vec3.rs`. -/
def cross (lhs rhs : Vec3) : Vec3 :=
  ⟨lhs.y * rhs.z - lhs.z * rhs.y, lhs.z * rhs.x - lhs.x * rhs.z,
    lhs.x * rhs.y - lhs.y * rhs.x⟩

/-- `unit_vector` from `vec3.rs`: `v / v.length()`. -/
noncomputable def unit_vector (v : Vec3) : Vec3 := v / v.length

/-- `Color` is a type alias of `Vec3` (`color.rs`). -/
abbrev Color := Vec3

/-- `Point3` is a type alias of `Vec3` (`ray.rs`). -/
abbrev Point3 := Vec3

/-- `Interval` from `utility.rs`.  Bounds are extended reals so that the
program's `INFINITY` bounds are representable. -/
structure Interval where
  min : EReal
  max : EReal

/-- `Interval::contains`: inclusive on both ends. -/
def Interval.contains (i : Interval) (x : EReal) : Prop := i.min ≤ x ∧ x ≤ i.max

/-- `Interval::surrounds`: strict on both ends. -/
def Interval.surrounds (i : Interval) (x : EReal) : Prop := i.min < x ∧ x < i.max

/-- `Interval::clamp` from `utility.rs`. -/
noncomputable def Interval.clamp (i : Interval) (x : EReal) : EReal :=
  if x < i.min then i.min else if x > i.max then i.max else x

/-- `Ray` from `ray.rs`. -/
structure Ray where
  orig : Point3
  dir : Vec3

/-- `Ray::at`: `origin + direction * t`. -/
def Ray.at (r : Ray) (t : ℝ) : Point3 := r.orig + r.dir * t

/-- `struct Lambertian` from `material.rs`. -/
structure Lambertian where
  albedo : Color

/-- `struct Metal` from `material.rs`. -/
structure Metal where
  albedo : Color
  fuzz : ℝ

/-- `struct Dieletric` from `material.rs` (the source's spelling). -/
structure Dieletric where
  ir : ℝ

/-- `enum Material` from `material.rs`. -/
inductive Material where
  | Lambertian (l : Lambertian)
  | Metal (m : Metal)
  | Dieletric (d : Dieletric)

/-- `Metal::from` from `material.rs`:
`Self { albedo, fuzz: if fuzz < 1.0 { fuzz } else { 1.0 } }`. -/
def Metal.make (albedo : Color) (fuzz : ℝ) : Metal :=
  { albedo := albedo, fuzz := if fuzz < 1 then fuzz else 1 }

/-- `HitRecord` from `hittable.rs`.  The `mat` reference is modelled as the
material value. -/
structure HitRecord where
  p : Point3
  normal : Vec3
  t : ℝ
  front_face : Bool
  mat : Material

/-- `HitRecord::set_face_normal` from `hittable.rs`: a functional rendering of
the two field assignments. -/
noncomputable def HitRecord.set_face_normal (rec : HitRecord) (r : Ray)
    (outward_normal : Vec3) : HitRecord :=
  let ff := dot r.dir outward_normal < 0
  { rec with
    front_face := if ff then true else false
    normal := if ff then outward_normal else -outward_normal }

/-- `Sphere` from `sphere.rs`. -/
structure Sphere where
  center : Point3
  radius : ℝ
  material : Material

/-- The quadratic coefficient `a = r.direction().length_squared()` from
`Sphere::hit` (`sphere.rs`). -/
def Sphere.aCoef (_s : Sphere) (r : Ray) : ℝ := r.dir.length_squared

/-- `half_b = dot(&r.direction(), &oc)` with `oc = r.origin() - self.center`
from `Sphere::hit`. -/
def Sphere.halfB (s : Sphere) (r : Ray) : ℝ := dot r.dir (r.orig - s.center)

/-- `c = oc.length_squared() - self.radius.powi(2)` from `Sphere::hit`. -/
def Sphere.cCoef (s : Sphere) (r : Ray) : ℝ :=
  (r.orig - s.center).length_squared - s.radius ^ 2

/-- `discriminant = half_b.powi(2) - a * c` from `Sphere::hit`. -/
def Sphere.disc (s : Sphere) (r : Ray) : ℝ :=
  Sphere.halfB s r ^ 2 - Sphere.aCoef s r * Sphere.cCoef s r

/-- `sqrtd = discriminant.sqrt()` from `Sphere::hit`. -/
def Sphere.sqrtd (s : Sphere) (r : Ray) : ℝ := Real.sqrt (Sphere.disc s r)

/-- The first candidate root `(-half_b - sqrtd) / a` from `Sphere::hit`. -/
def Sphere.root1 (s : Sphere) (r : Ray) : ℝ :=
  (-Sphere.halfB s r - Sphere.sqrtd s r) / Sphere.aCoef s r

/-- The second candidate root `(-half_b + sqrtd) / a` from `Sphere::hit`. -/
def Sphere.root2 (s : Sphere) (r : Ray) : ℝ :=
  (-Sphere.halfB s r + Sphere.sqrtd s r) / Sphere.aCoef s r

/-- The `HitRecord` that `Sphere::hit` builds for an accepted root: `p` and `t`
are `r.at(root)` and `root`, the outward normal is `(p - center) / radius`,
and `set_face_normal` is applied last. -/
def Sphere.record (s : Sphere) (r : Ray) (root : ℝ) : HitRecord :=
  let p := r.at root
  let outward_normal := (p - s.center) / s.radius
  HitRecord.set_face_normal
    { p := r.at root, t := root, normal := outward_normal, front_face := false,
      mat := s.material } r outward_normal

/-- `Sphere::hit` from `sphere.rs`: no hit on a negative discriminant,
otherwise the first of the two candidate roots that the interval strictly
surrounds, or no hit. -/
def Sphere.hit (s : Sphere) (r : Ray) (ray_t : Interval) : Option HitRecord :=
  if Sphere.disc s r < 0 then none
  else if ray_t.surrounds ↑(Sphere.root1 s r) then
    some (Sphere.record s r (Sphere.root1 s r))
  else if ray_t.surrounds ↑(Sphere.root2 s r) then
    some (Sphere.record s r (Sphere.root2 s r))
  else none

/-- The shape of the `Hittable` trait method (`hittable.rs`): a boxed
`dyn Hittable` is modelled by its `hit` function. -/
def HitFun : Type := Ray → Interval → Option HitRecord

/-- The loop body of `HittableList::hit` (`hittable_list.rs`): iterate over
the objects, querying each with the interval `(ray_t.min, closest_so_far)` and
updating `closest_so_far`/`hit_anything` on a hit. -/
def hitLoop (r : Ray) (tmin : EReal) :
    List HitFun → EReal → Option HitRecord → Option HitRecord
  | [], _closest, best => best
  | obj :: rest, closest, best =>
    match obj r (Interval.mk tmin closest) with
    | some rec => hitLoop r tmin rest (↑rec.t) (some rec)
    | none => hitLoop r tmin rest closest best

/-- `HittableList` from `hittable_list.rs`. -/
structure HittableList where
  objects : List HitFun

/-- `HittableList::hit`: the scan starts with `closest_so_far = ray_t.max` and
`hit_anything = None`. -/
def HittableList.hit (l : HittableList) (r : Ray) (ray_t : Interval) :
    Option HitRecord :=
  hitLoop r ray_t.min l.objects ray_t.max none

/-- The shape of `Scatterable::scatter` (`material.rs`).  Scattering draws
random numbers; the whole dispatch `rec.mat.scatter(r, &rec)` is therefore
modelled as an oracle of this type that `ray_color` consumes. -/
def ScatterFun : Type := Material → Ray → HitRecord → Option (Ray × Color)

/-- `Camera` from `camera.rs`: ten optional configuration fields plus the
derived state computed by initialization. -/
structure Camera where
  aspect_ratio : Option ℝ
  image_width : Option ℤ
  samples_per_pixel : Option ℤ
  max_depth : Option ℤ
  vfov : Option ℝ
  look_from : Option Point3
  look_at : Option Point3
  vup : Option Point3
  defocus_angle : Option ℝ
  focus_dist : Option ℝ
  image_height : ℤ
  center : Point3
  pixel00_loc : Point3
  pixel_delta_u : Vec3
  pixel_delta_v : Vec3
  u : Vec3
  v : Vec3
  w : Vec3
  defocus_disk_u : Vec3
  defocus_disk_v : Vec3

/-- `degrees_to_radians` from `utility.rs`. -/
def degrees_to_radians (degrees : ℝ) : ℝ := degrees * Real.pi / 180

/-- Rust's `as i32` float-to-int cast truncates toward zero (saturation is not
modelled; the renderer only casts small in-range values). -/
def rustTrunc (x : ℝ) : ℤ := if 0 ≤ x then ⌊x⌋ else ⌈x⌉

/-- Step of `Camera::initialize`: default `aspect_ratio` to `1.0`. -/
def dAspect (c : Camera) : Camera :=
  if ( Camera.aspect_ratio c).isNone then { c with aspect_ratio := some 1 } else c

/-- Step of `Camera::initialize`: default `image_width` to `100`. -/
def dWidth (c : Camera) : Camera :=
  if c.image_width.isNone then { c with image_width := some 100 } else c

/-- Step of `Camera::initialize`: default `samples_per_pixel` to `10`. -/
def dSamples (c : Camera) : Camera :=
  if c.samples_per_pixel.isNone then { c with samples_per_pixel := some 10 } else c

/-- Step of `Camera::initialize`: default `max_depth` to `10`. -/
def dMaxDepth (c : Camera) : Camera :=
  if c.max_depth.isNone then { c with max_depth := some 10 } else c

/-- Step of `Camera::initialize`: default `vfov` to `90.0`. -/
def dVfov (c : Camera) : Camera :=
  if c.vfov.isNone then { c with vfov := some 90 } else c

/-- Step of `Camera::initialize`: default `look_from` to `(0, 0, -1)`. -/
def dLookFrom (c : Camera) : Camera :=
  if c.look_from.isNone then { c with look_from := some ⟨0, 0, -1⟩ } else c

/-- Step of `Camera::initialize`: default `look_at` to `(0, 0, 0)`. -/
def dLookAt (c : Camera) : Camera :=
  if c.look_at.isNone then { c with look_at := some ⟨0, 0, 0⟩ } else c

/-- Step of `Camera::initialize`: default `vup` to `(0, 1, 0)`. -/
def dVup (c : Camera) : Camera :=
  if c.vup.isNone then { c with vup := some ⟨0, 1, 0⟩ } else c

/-- Step of `Camera::initialize`: default `defocus_angle` to `0.0`. -/
def dDefocus (c : Camera) : Camera :=
  if c.defocus_angle.isNone then { c with defocus_angle := some 0 } else c

/-- Step of `Camera::initialize`: default `focus_dist` to `10.0`. -/
def dFocus (c : Camera) : Camera :=
  if c.focus_dist.isNone then { c with focus_dist := some 10 } else c

/-- The derived-state computation at the end of `Camera::initialize`
(`camera.rs` lines 71-116).  The source unwraps the options, which the
preceding defaulting steps have made `Some`; `unwrap` is rendered as `getD`
with an irrelevant default. -/
def Camera.derive (c : Camera) : Camera :=
  let image_height0 := rustTrunc ((c.image_width.getD 0 : ℝ) / ( Camera.aspect_ratio c).getD 0)
  let image_height1 := if 1 < image_height0 then image_height0 else 1
  let center := c.look_from.getD Vec3.new
  let theta := degrees_to_radians (c.vfov.getD 0)
  let h := Real.tan (theta / 2)
  let viewport_height := 2 * h * c.focus_dist.getD 0
  let viewport_width := viewport_height * ((c.image_width.getD 0 : ℝ) / (image_height1 : ℝ))
  let w := unit_vector (c.look_from.getD Vec3.new - c.look_at.getD Vec3.new)
  let u := unit_vector (cross (c.vup.getD Vec3.new) w)
  let v := cross w u
  let viewport_u := viewport_width * u
  let viewport_v := viewport_height * (-v)
  let pixel_delta_u := viewport_u / (c.image_width.getD 0 : ℝ)
  let pixel_delta_v := viewport_v / (image_height1 : ℝ)
  let viewport_upper_left :=
    center - c.focus_dist.getD 0 * w - viewport_u / (2 : ℝ) - viewport_v / (2 : ℝ)
  let pixel00_loc := viewport_upper_left + (0.5 : ℝ) * (pixel_delta_u + pixel_delta_v)
  let defocus_radius :=
    c.focus_dist.getD 0 * Real.tan (degrees_to_radians (c.defocus_angle.getD 0 / 2))
  { c with
    image_height := image_height1
    center := center
    pixel00_loc := pixel00_loc
    pixel_delta_u := pixel_delta_u
    pixel_delta_v := pixel_delta_v
    u := u
    v := v
    w := w
    defocus_disk_u := u * defocus_radius
    defocus_disk_v := v * defocus_radius }

/-- `Camera::initialize` from `camera.rs`: the ten defaulting assignments in
source order, followed by the derived-state computation. -/
def Camera.init (c : Camera) : Camera :=
  Camera.derive
    (dFocus (dDefocus (dVup (dLookAt (dLookFrom (dVfov (dMaxDepth (dSamples (dWidth (dAspect c))))))))))

/-- `Camera::ray_color` from `camera.rs`.  The world is the `&dyn Hittable`
argument, modelled by its `hit` function; material scattering is stochastic
and is modelled by the scatter oracle. -/
def rayColor (scat : ScatterFun) (world : HitFun) (r : Ray) (depth : ℤ) : Color :=
  if _h : depth ≤ 0 then Vec3.new
  else
    match world r (Interval.mk ((0.001 : ℝ) : EReal) ⊤) with
    | some rec =>
      match scat rec.mat r rec with
      | some sc => sc.2 * rayColor scat world sc.1 (depth - 1)
      | none => Vec3.new
    | none =>
      let unit_direction := unit_vector r.dir
      let a := 0.5 * (unit_direction.y + 1)
      (1 - a) * (⟨1, 1, 1⟩ : Color) + a * (⟨0.5, 0.7, 1.0⟩ : Color)
termination_by depth.toNat
decreasing_by simp_wf; omega

/-- The acceptance test of the rejection loop in `random_in_unit_sphere`
(`vec3.rs`): `p.length_squared() < 1.0`. -/
def vecAccept (p : Vec3) : Prop := p.length_squared < 1

/-- `random_in_unit_sphere` from `vec3.rs`, with the random draws made
explicit: the loop returns the first drawn vector whose squared length is
strictly below `1`.  The hypothesis that some draw is eventually accepted
makes the unbounded `loop` total. -/
def random_in_unit_sphere (draws : ℕ → Vec3) (h : ∃ n, vecAccept (draws n)) :
    Vec3 :=
  draws (Nat.find h)

/-- `random_unit_vector` from `vec3.rs`:
`unit_vector(random_in_unit_sphere())`. -/
def random_unit_vector (draws : ℕ → Vec3) (h : ∃ n, vecAccept (draws n)) :
    Vec3 :=
  unit_vector (random_in_unit_sphere draws h)

/-! ### Claim C1: the fuzz stored by `Metal::from` -/

/-- Claim C1, counterexample: `Metal::from` does not clamp a negative fuzz
into the unit interval — with `fuzz = -1` the stored fuzz is `-1`, which is
not in the interval from 0 to 1. -/
theorem metal_make_neg_fuzz_escapes :
    (Metal.make ⟨1, 1, 1⟩ (-1)).fuzz = -1 ∧
      ¬ (0 ≤ (Metal.make ⟨1, 1, 1⟩ (-1)).fuzz) := by
  norm_num [Metal.make]

/-- Claim C1, amended: `Metal::from` clamps the fuzz only from above — the
stored fuzz is `min fuzz 1`, hence always at most `1`, while values below `1`
(including negative ones) are stored unchanged. -/
theorem metal_make_fuzz_min (albedo : Color) (fuzz : ℝ) :
    (Metal.make albedo fuzz).fuzz = min fuzz 1 ∧ (Metal.make albedo fuzz).fuzz ≤ 1 := by
  unfold Metal.make
  dsimp only
  constructor
  · split_ifs with h
    · exact (min_eq_left h.le).symm
    · exact (min_eq_right (not_lt.mp h)).symm
  · split_ifs with h
    · exact h.le
    · exact le_refl 1

/-! ### Claim C5: `Interval::clamp` -/

/-- Claim C5, counterexample: on an interval whose `min` exceeds its `max`
(the source even provides `EMPTY` with `min = ∞ > -∞ = max`), `clamp` is not
idempotent and its result does not lie between `min` and `max`: with the
interval from 1 down to 0, `clamp 2 = 0` but `clamp (clamp 2) = 1`. -/
theorem interval_clamp_not_idempotent :
    Interval.clamp ⟨((1 : ℝ) : EReal), ((0 : ℝ) : EReal)⟩
        (Interval.clamp ⟨((1 : ℝ) : EReal), ((0 : ℝ) : EReal)⟩ ((2 : ℝ) : EReal)) ≠
      Interval.clamp ⟨((1 : ℝ) : EReal), ((0 : ℝ) : EReal)⟩ ((2 : ℝ) : EReal) ∧
    ¬ Interval.contains ⟨((1 : ℝ) : EReal), ((0 : ℝ) : EReal)⟩
        (Interval.clamp ⟨((1 : ℝ) : EReal), ((0 : ℝ) : EReal)⟩ ((2 : ℝ) : EReal)) := by
  have h20 : ¬ ((2 : ℝ) : EReal) < ((1 : ℝ) : EReal) := by
    rw [EReal.coe_lt_coe_iff]; norm_num
  have h21 : ((2 : ℝ) : EReal) > ((0 : ℝ) : EReal) := by
    rw [gt_iff_lt, EReal.coe_lt_coe_iff]; norm_num
  have hc2 : Interval.clamp ⟨((1 : ℝ) : EReal), ((0 : ℝ) : EReal)⟩ ((2 : ℝ) : EReal) =
      ((0 : ℝ) : EReal) := by
    unfold Interval.clamp
    rw [if_neg h20, if_pos h21]
  have h01 : ((0 : ℝ) : EReal) < ((1 : ℝ) : EReal) := by
    rw [EReal.coe_lt_coe_iff]; norm_num
  have hc0 : Interval.clamp ⟨((1 : ℝ) : EReal), ((0 : ℝ) : EReal)⟩ ((0 : ℝ) : EReal) =
      ((1 : ℝ) : EReal) := by
    unfold Interval.clamp
    rw [if_pos h01]
  refine ⟨?_, ?_⟩
  · rw [hc2, hc0]
    intro h
    rw [EReal.coe_eq_coe_iff] at h
    norm_num at h
  · rw [hc2]
    intro h
    have := h.1
    rw [EReal.coe_le_coe_iff] at this
    norm_num at this

/-- Claim C5, amended: on every interval whose `min` is at most its `max`
(in particular every nonempty one), `clamp` is idempotent and its result lies
between `min` and `max`; on inverted intervals such as the source's `EMPTY`
both properties fail. -/
theorem interval_clamp_idempotent_mem (i : Interval) (hle : i.min ≤ i.max)
    (x : EReal) :
    i.clamp (i.clamp x) = i.clamp x ∧ i.min ≤ i.clamp x ∧ i.clamp x ≤ i.max := by
  have hmem : i.min ≤ i.clamp x ∧ i.clamp x ≤ i.max := by
    unfold Interval.clamp
    split_ifs with h1 h2
    · exact ⟨le_refl _, hle⟩
    · exact ⟨hle, le_refl _⟩
    · exact ⟨not_lt.mp h1, not_lt.mp h2⟩
  have hid : ∀ y, i.min ≤ y → y ≤ i.max → i.clamp y = y := by
    intro y hy1 hy2
    unfold Interval.clamp
    rw [if_neg (not_lt.mpr hy1), if_neg (not_lt.mpr hy2)]
  exact ⟨hid _ hmem.1 hmem.2, hmem⟩

/-- Claim C5, witness: the amended theorem applied to the unit interval and
the input `5`. -/
theorem interval_clamp_idempotent_mem_app :
    (((0 : ℝ) : EReal) ≤ ((1 : ℝ) : EReal)) ∧
      (Interval.clamp ⟨((0 : ℝ) : EReal), ((1 : ℝ) : EReal)⟩
          (Interval.clamp ⟨((0 : ℝ) : EReal), ((1 : ℝ) : EReal)⟩ ((5 : ℝ) : EReal)) =
        Interval.clamp ⟨((0 : ℝ) : EReal), ((1 : ℝ) : EReal)⟩ ((5 : ℝ) : EReal) ∧
      ((0 : ℝ) : EReal) ≤
        Interval.clamp ⟨((0 : ℝ) : EReal), ((1 : ℝ) : EReal)⟩ ((5 : ℝ) : EReal) ∧
      Interval.clamp ⟨((0 : ℝ) : EReal), ((1 : ℝ) : EReal)⟩ ((5 : ℝ) : EReal) ≤
        ((1 : ℝ) : EReal)) := by
  have h : ((0 : ℝ) : EReal) ≤ ((1 : ℝ) : EReal) := by
    rw [EReal.coe_le_coe_iff]; norm_num
  exact ⟨h, interval_clamp_idempotent_mem ⟨((0 : ℝ) : EReal), ((1 : ℝ) : EReal)⟩ h
    ((5 : ℝ) : EReal)⟩

/-! ### Claim C6: exhausted bounce budget -/

/-- Claim C6: for every scatter oracle, world, ray, and `depth ≤ 0`,
`ray_color` returns pure black, regardless of scene content. -/
theorem ray_color_depth_exhausted (scat : ScatterFun) (world : HitFun) (r : Ray)
    (depth : ℤ) (h : depth ≤ 0) : rayColor scat world r depth = Vec3.new := by
  unfold rayColor
  rw [dif_pos h]

/-- Claim C6, witness: depth `0` with a trivial world and oracle. -/
theorem ray_color_depth_exhausted_app :
    ((0 : ℤ) ≤ 0) ∧
      rayColor (fun _ _ _ => none) (fun _ _ => none) ⟨Vec3.new, Vec3.new⟩ 0 =
        Vec3.new :=
  ⟨le_refl 0,
    ray_color_depth_exhausted (fun _ _ _ => none) (fun _ _ => none)
      ⟨Vec3.new, Vec3.new⟩ 0 (le_refl 0)⟩

/-! ### Claim C8: empty world renders the sky gradient -/

/-- `HittableList::hit` on an empty list is always `None`. -/
theorem hittableList_hit_nil (r : Ray) (ray_t : Interval) :
    HittableList.hit ⟨[]⟩ r ray_t = none := rfl

/-- Claim C8: against an empty `HittableList`, for every ray with nonzero
direction and every `depth ≥ 1`, `ray_color` returns exactly the sky-gradient
value `(1-a)*(1,1,1) + a*(0.5,0.7,1.0)` with
`a = 0.5*(unit_vector(direction).y + 1)` — for every scatter oracle, hence
independently of any random draws. -/
theorem ray_color_empty_world_sky (scat : ScatterFun) (r : Ray) (depth : ℤ)
    (hdepth : 1 ≤ depth) (_hdir : r.dir ≠ Vec3.new) :
    rayColor scat (HittableList.hit ⟨[]⟩) r depth =
      (1 - 0.5 * ((unit_vector r.dir).y + 1)) * (⟨1, 1, 1⟩ : Color) +
        (0.5 * ((unit_vector r.dir).y + 1)) * (⟨0.5, 0.7, 1.0⟩ : Color) := by
  unfold rayColor
  rw [dif_neg (by omega)]
  simp only [hittableList_hit_nil]

/-- Claim C8, witness: the straight-up ray at depth `1` with the absorbing
oracle. -/
theorem ray_color_empty_world_sky_app :
    ((1 : ℤ) ≤ 1) ∧ ((⟨0, 1, 0⟩ : Vec3) ≠ Vec3.new) ∧
      rayColor (fun _ _ _ => none) (HittableList.hit ⟨[]⟩)
          ⟨Vec3.new, ⟨0, 1, 0⟩⟩ 1 =
        (1 - 0.5 * ((unit_vector (⟨0, 1, 0⟩ : Vec3)).y + 1)) * (⟨1, 1, 1⟩ : Color) +
          (0.5 * ((unit_vector (⟨0, 1, 0⟩ : Vec3)).y + 1)) * (⟨0.5, 0.7, 1.0⟩ : Color) := by
  have hdir : (⟨0, 1, 0⟩ : Vec3) ≠ Vec3.new := by
    intro hcontra
    rw [Vec3.new] at hcontra
    have := congrArg Vec3.y hcontra
    norm_num at this
  exact ⟨le_refl 1, hdir,
    ray_color_empty_world_sky (fun _ _ _ => none) ⟨Vec3.new, ⟨0, 1, 0⟩⟩ 1
      (le_refl 1) hdir⟩

/-! ### Claim C7: camera configuration defaults -/

/-- `dAspect` as a single record update. -/
theorem dAspect_eq (c : Camera) :
    dAspect c = { c with aspect_ratio := some (( Camera.aspect_ratio c).getD 1) } := by
  unfold dAspect
  cases h : Camera.aspect_ratio c
  · simp [h]
  · simp [h]
    conv_rhs => rw [← h]

/-- `dWidth` as a single record update. -/
theorem dWidth_eq (c : Camera) :
    dWidth c = { c with image_width := some (c.image_width.getD 100) } := by
  unfold dWidth
  cases h : c.image_width
  · simp [h]
  · simp [h]
    conv_rhs => rw [← h]

/-- `dSamples` as a single record update. -/
theorem dSamples_eq (c : Camera) :
    dSamples c = { c with samples_per_pixel := some (c.samples_per_pixel.getD 10) } := by
  unfold dSamples
  cases h : c.samples_per_pixel
  · simp [h]
  · simp [h]
    conv_rhs => rw [← h]

/-- `dMaxDepth` as a single record update. -/
theorem dMaxDepth_eq (c : Camera) :
    dMaxDepth c = { c with max_depth := some (c.max_depth.getD 10) } := by
  unfold dMaxDepth
  cases h : c.max_depth
  · simp [h]
  · simp [h]
    conv_rhs => rw [← h]

/-- `dVfov` as a single record update. -/
theorem dVfov_eq (c : Camera) :
    dVfov c = { c with vfov := some (c.vfov.getD 90) } := by
  unfold dVfov
  cases h : c.vfov
  · simp [h]
  · simp [h]
    conv_rhs => rw [← h]

/-- `dLookFrom` as a single record update. -/
theorem dLookFrom_eq (c : Camera) :
    dLookFrom c = { c with look_from := some (c.look_from.getD ⟨0, 0, -1⟩) } := by
  unfold dLookFrom
  cases h : c.look_from
  · simp [h]
  · simp [h]
    conv_rhs => rw [← h]

/-- `dLookAt` as a single record update. -/
theorem dLookAt_eq (c : Camera) :
    dLookAt c = { c with look_at := some (c.look_at.getD ⟨0, 0, 0⟩) } := by
  unfold dLookAt
  cases h : c.look_at
  · simp [h]
  · simp [h]
    conv_rhs => rw [← h]

/-- `dVup` as a single record update. -/
theorem dVup_eq (c : Camera) :
    dVup c = { c with vup := some (c.vup.getD ⟨0, 1, 0⟩) } := by
  unfold dVup
  cases h : c.vup
  · simp [h]
  · simp [h]
    conv_rhs => rw [← h]

/-- `dDefocus` as a single record update. -/
theorem dDefocus_eq (c : Camera) :
    dDefocus c = { c with defocus_angle := some (c.defocus_angle.getD 0) } := by
  unfold dDefocus
  cases h : c.defocus_angle
  · simp [h]
  · simp [h]
    conv_rhs => rw [← h]

/-- `dFocus` as a single record update. -/
theorem dFocus_eq (c : Camera) :
    dFocus c = { c with focus_dist := some (c.focus_dist.getD 10) } := by
  unfold dFocus
  cases h : c.focus_dist
  · simp [h]
  · simp [h]
    conv_rhs => rw [← h]

/-- Claim C7: after `Camera::initialize`, each of the ten configuration fields
holds the user-supplied value when one was set, and otherwise its stated
default (`1.0`, `100`, `10`, `10`, `90` degrees, `(0,0,-1)`, `(0,0,0)`,
`(0,1,0)`, `0` degrees, `10.0`), expressed via `Option.getD`. -/
theorem camera_init_defaults (c : Camera) :
    ( Camera.aspect_ratio (Camera.init c)) = some (( Camera.aspect_ratio c).getD 1) ∧
    (Camera.init c).image_width = some (c.image_width.getD 100) ∧
    (Camera.init c).samples_per_pixel = some (c.samples_per_pixel.getD 10) ∧
    (Camera.init c).max_depth = some (c.max_depth.getD 10) ∧
    (Camera.init c).vfov = some (c.vfov.getD 90) ∧
    (Camera.init c).look_from = some (c.look_from.getD ⟨0, 0, -1⟩) ∧
    (Camera.init c).look_at = some (c.look_at.getD ⟨0, 0, 0⟩) ∧
    (Camera.init c).vup = some (c.vup.getD ⟨0, 1, 0⟩) ∧
    (Camera.init c).defocus_angle = some (c.defocus_angle.getD 0) ∧
    (Camera.init c).focus_dist = some (c.focus_dist.getD 10) := by
  simp only [Camera.init, dAspect_eq, dWidth_eq, dSamples_eq, dMaxDepth_eq,
    dVfov_eq, dLookFrom_eq, dLookAt_eq, dVup_eq, dDefocus_eq, dFocus_eq]
  exact ⟨rfl, rfl, rfl, rfl, rfl, rfl, rfl, rfl, rfl, rfl⟩

/-! ### Component lemmas for the vector operations -/

@[simp] theorem Vec3.add_x (a b : Vec3) : (a + b).x = a.x + b.x := rfl
@[simp] theorem Vec3.add_y (a b : Vec3) : (a + b).y = a.y + b.y := rfl
@[simp] theorem Vec3.add_z (a b : Vec3) : (a + b).z = a.z + b.z := rfl
@[simp] theorem Vec3.sub_x (a b : Vec3) : (a - b).x = a.x - b.x := rfl
@[simp] theorem Vec3.sub_y (a b : Vec3) : (a - b).y = a.y - b.y := rfl
@[simp] theorem Vec3.sub_z (a b : Vec3) : (a - b).z = a.z - b.z := rfl
@[simp] theorem Vec3.neg_x (a : Vec3) : (-a).x = -a.x := rfl
@[simp] theorem Vec3.neg_y (a : Vec3) : (-a).y = -a.y := rfl
@[simp] theorem Vec3.neg_z (a : Vec3) : (-a).z = -a.z := rfl
@[simp] theorem Vec3.mulS_x (a : Vec3) (k : ℝ) : (a * k).x = a.x * k := rfl
@[simp] theorem Vec3.mulS_y (a : Vec3) (k : ℝ) : (a * k).y = a.y * k := rfl
@[simp] theorem Vec3.mulS_z (a : Vec3) (k : ℝ) : (a * k).z = a.z * k := rfl
@[simp] theorem Vec3.smul_x (k : ℝ) (a : Vec3) : (k * a).x = a.x * k := rfl
@[simp] theorem Vec3.smul_y (k : ℝ) (a : Vec3) : (k * a).y = a.y * k := rfl
@[simp] theorem Vec3.smul_z (k : ℝ) (a : Vec3) : (k * a).z = a.z * k := rfl
@[simp] theorem Vec3.mulV_x (a b : Vec3) : (a * b).x = a.x * b.x := rfl
@[simp] theorem Vec3.mulV_y (a b : Vec3) : (a * b).y = a.y * b.y := rfl
@[simp] theorem Vec3.mulV_z (a b : Vec3) : (a * b).z = a.z * b.z := rfl
@[simp] theorem Vec3.div_x (a : Vec3) (k : ℝ) : (a / k).x = a.x / k := rfl
@[simp] theorem Vec3.div_y (a : Vec3) (k : ℝ) : (a / k).y = a.y / k := rfl
@[simp] theorem Vec3.div_z (a : Vec3) (k : ℝ) : (a / k).z = a.z / k := rfl

/-- The squared length vanishes exactly on the zero vector. -/
theorem Vec3.length_squared_eq_zero_iff (v : Vec3) :
    v.length_squared = 0 ↔ v = Vec3.new := by
  obtain ⟨a, b, c⟩ := v
  unfold Vec3.length_squared Vec3.new
  constructor
  · intro h
    have ha : a = 0 := by nlinarith [mul_self_nonneg a, mul_self_nonneg b, mul_self_nonneg c]
    have hb : b = 0 := by nlinarith [mul_self_nonneg a, mul_self_nonneg b, mul_self_nonneg c]
    have hc : c = 0 := by nlinarith [mul_self_nonneg a, mul_self_nonneg b, mul_self_nonneg c]
    simp [ha, hb, hc]
  · intro h
    cases h
    norm_num

/-- The squared length is nonnegative. -/
theorem Vec3.length_squared_nonneg (v : Vec3) : 0 ≤ v.length_squared := by
  unfold Vec3.length_squared
  nlinarith [mul_self_nonneg v.x, mul_self_nonneg v.y, mul_self_nonneg v.z]

/-- A nonzero vector has positive squared length. -/
theorem Vec3.length_squared_pos (v : Vec3) (h : v ≠ Vec3.new) :
    0 < v.length_squared := by
  rcases lt_or_eq_of_le (Vec3.length_squared_nonneg v) with hlt | heq
  · exact hlt
  · exact absurd ((Vec3.length_squared_eq_zero_iff v).mp heq.symm) h

/-- `dot` is symmetric. -/
theorem dot_comm (a b : Vec3) : dot a b = dot b a := by
  unfold dot; ring

/-- `dot` with a negated left argument. -/
theorem dot_neg_left (a b : Vec3) : dot (-a) b = -dot a b := by
  unfold dot; simp; ring

/-- Squared length of a component-wise quotient. -/
theorem Vec3.div_length_squared (v : Vec3) (k : ℝ) :
    (v / k).length_squared = v.length_squared / k ^ 2 := by
  unfold Vec3.length_squared
  simp
  ring

/-- Squared length of a negation. -/
theorem Vec3.neg_length_squared (v : Vec3) :
    (-v).length_squared = v.length_squared := by
  unfold Vec3.length_squared
  simp only [Vec3.neg_x, Vec3.neg_y, Vec3.neg_z]
  ring

/-! ### The sphere intersection algebra -/

/-- Expansion of the squared distance from `r.at(t)` to the center. -/
theorem at_sub_center_length_squared (s : Sphere) (r : Ray) (t : ℝ) :
    (r.at t - s.center).length_squared =
      (r.orig - s.center).length_squared +
        2 * t * dot r.dir (r.orig - s.center) + t ^ 2 * r.dir.length_squared := by
  unfold Ray.at Vec3.length_squared dot
  simp
  ring

/-- Both candidate roots of `Sphere::hit` satisfy the intersection quadratic
`a*t^2 + 2*half_b*t + c = 0` (for a nonzero direction and a nonnegative
discriminant). -/
theorem sphere_root_quadratic (s : Sphere) (r : Ray) (ha : Sphere.aCoef s r ≠ 0)
    (hd : 0 ≤ Sphere.disc s r) (t : ℝ)
    (ht : t = Sphere.root1 s r ∨ t = Sphere.root2 s r) :
    Sphere.cCoef s r + 2 * t * Sphere.halfB s r + Sphere.aCoef s r * t ^ 2 = 0 := by
  have hd2 : Sphere.sqrtd s r ^ 2 = Sphere.halfB s r ^ 2 - Sphere.aCoef s r * Sphere.cCoef s r := by
    unfold Sphere.sqrtd
    rw [Real.sq_sqrt hd]
    unfold Sphere.disc
    ring
  have hz : Sphere.aCoef s r *
      (Sphere.cCoef s r + 2 * t * Sphere.halfB s r + Sphere.aCoef s r * t ^ 2) = 0 := by
    rcases ht with h | h
    · have key : Sphere.aCoef s r * t = -Sphere.halfB s r - Sphere.sqrtd s r := by
        rw [h]; unfold Sphere.root1; field_simp
      calc Sphere.aCoef s r *
            (Sphere.cCoef s r + 2 * t * Sphere.halfB s r + Sphere.aCoef s r * t ^ 2) =
          Sphere.aCoef s r * Sphere.cCoef s r +
            2 * Sphere.halfB s r * (Sphere.aCoef s r * t) + (Sphere.aCoef s r * t) ^ 2 := by
            ring
        _ = 0 := by rw [key]; linear_combination hd2
    · have key : Sphere.aCoef s r * t = -Sphere.halfB s r + Sphere.sqrtd s r := by
        rw [h]; unfold Sphere.root2; field_simp
      calc Sphere.aCoef s r *
            (Sphere.cCoef s r + 2 * t * Sphere.halfB s r + Sphere.aCoef s r * t ^ 2) =
          Sphere.aCoef s r * Sphere.cCoef s r +
            2 * Sphere.halfB s r * (Sphere.aCoef s r * t) + (Sphere.aCoef s r * t) ^ 2 := by
            ring
        _ = 0 := by rw [key]; linear_combination hd2
  exact (mul_eq_zero.mp hz).resolve_left ha

/-- The point `r.at(root)` of an accepted root lies exactly on the sphere. -/
theorem sphere_root_on_sphere (s : Sphere) (r : Ray) (hdir : r.dir ≠ Vec3.new)
    (hd : 0 ≤ Sphere.disc s r) (t : ℝ)
    (ht : t = Sphere.root1 s r ∨ t = Sphere.root2 s r) :
    (r.at t - s.center).length_squared = s.radius ^ 2 := by
  have ha : Sphere.aCoef s r ≠ 0 :=
    ne_of_gt (Vec3.length_squared_pos r.dir hdir)
  have hq := sphere_root_quadratic s r ha hd t ht
  rw [at_sub_center_length_squared]
  have hc : (r.orig - s.center).length_squared = Sphere.cCoef s r + s.radius ^ 2 := by
    unfold Sphere.cCoef; ring
  have hb : dot r.dir (r.orig - s.center) = Sphere.halfB s r := rfl
  have hal : r.dir.length_squared = Sphere.aCoef s r := rfl
  rw [hc, hb, hal]
  linarith [hq]

/-- Inversion of `Sphere::hit`: a returned record comes from one of the two
candidate roots, accepted by the strict `surrounds` test, with a nonnegative
discriminant. -/
theorem sphere_hit_some_elim (s : Sphere) (r : Ray) (I : Interval)
    (rec : HitRecord) (h : Sphere.hit s r I = some rec) :
    0 ≤ Sphere.disc s r ∧
      ((rec = Sphere.record s r (Sphere.root1 s r) ∧
          I.surrounds ↑(Sphere.root1 s r)) ∨
        (rec = Sphere.record s r (Sphere.root2 s r) ∧
          I.surrounds ↑(Sphere.root2 s r))) := by
  unfold Sphere.hit at h
  split_ifs at h with h1 h2 h3
  · exact ⟨not_lt.mp h1, Or.inl ⟨(Option.some.inj h).symm, h2⟩⟩
  · exact ⟨not_lt.mp h1, Or.inr ⟨(Option.some.inj h).symm, h3⟩⟩

/-! ### Claim C4: root selection in `Sphere::hit` -/

/-- Claim C4: for a ray with nonzero direction, `Sphere::hit` returns `None`
on a negative discriminant; otherwise it considers the roots
`(-half_b - sqrtd)/a` and `(-half_b + sqrtd)/a` in ascending order, returns
the record of the first root strictly surrounded by the interval (with
`p = ray.at(t)`), and returns `None` when neither root is strictly inside. -/
theorem sphere_hit_root_selection (s : Sphere) (r : Ray) (I : Interval)
    (hdir : r.dir ≠ Vec3.new) :
    (Sphere.disc s r < 0 → Sphere.hit s r I = none) ∧
    Sphere.root1 s r ≤ Sphere.root2 s r ∧
    (0 ≤ Sphere.disc s r → I.surrounds ↑(Sphere.root1 s r) →
      Sphere.hit s r I = some (Sphere.record s r (Sphere.root1 s r))) ∧
    (0 ≤ Sphere.disc s r → ¬ I.surrounds ↑(Sphere.root1 s r) →
      I.surrounds ↑(Sphere.root2 s r) →
      Sphere.hit s r I = some (Sphere.record s r (Sphere.root2 s r))) ∧
    (¬ I.surrounds ↑(Sphere.root1 s r) → ¬ I.surrounds ↑(Sphere.root2 s r) →
      Sphere.hit s r I = none) ∧
    (∀ rec, Sphere.hit s r I = some rec →
      rec.p = r.at rec.t ∧ I.surrounds ↑rec.t ∧
        (rec.t = Sphere.root1 s r ∨ rec.t = Sphere.root2 s r)) := by
  have ha : 0 < Sphere.aCoef s r := Vec3.length_squared_pos r.dir hdir
  refine ⟨?_, ?_, ?_, ?_, ?_, ?_⟩
  · intro h
    unfold Sphere.hit
    rw [if_pos h]
  · have hs : 0 ≤ Sphere.sqrtd s r := Real.sqrt_nonneg _
    unfold Sphere.root1 Sphere.root2
    rw [div_le_div_iff_of_pos_right ha]
    linarith
  · intro h1 h2
    unfold Sphere.hit
    rw [if_neg (not_lt.mpr h1), if_pos h2]
  · intro h1 h2 h3
    unfold Sphere.hit
    rw [if_neg (not_lt.mpr h1), if_neg h2, if_pos h3]
  · intro h2 h3
    unfold Sphere.hit
    by_cases h1 : Sphere.disc s r < 0
    · rw [if_pos h1]
    · rw [if_neg h1, if_neg h2, if_neg h3]
  · intro rec h
    obtain ⟨hd0, hcase⟩ := sphere_hit_some_elim s r I rec h
    rcases hcase with ⟨hrec, hsur⟩ | ⟨hrec, hsur⟩
    · subst hrec
      exact ⟨rfl, hsur, Or.inl rfl⟩
    · subst hrec
      exact ⟨rfl, hsur, Or.inr rfl⟩

/-! ### Claim C3: orientation and unit length of the stored normal -/

/-- The record `Sphere::hit` builds for an accepted root has its normal
oriented against the ray, and (given a nonzero direction and radius) of unit
length. -/
theorem sphere_record_oriented_unit (s : Sphere) (r : Ray)
    (hdir : r.dir ≠ Vec3.new) (hrad : s.radius ≠ 0) (hd0 : 0 ≤ Sphere.disc s r)
    (root : ℝ) (hroot : root = Sphere.root1 s r ∨ root = Sphere.root2 s r) :
    ((Sphere.record s r root).front_face = true ↔
      dot r.dir (((Sphere.record s r root).p - s.center) / s.radius) < 0) ∧
    ((Sphere.record s r root).front_face = true →
      (Sphere.record s r root).normal =
        ((Sphere.record s r root).p - s.center) / s.radius) ∧
    ((Sphere.record s r root).front_face = false →
      (Sphere.record s r root).normal =
        -(((Sphere.record s r root).p - s.center) / s.radius)) ∧
    dot (Sphere.record s r root).normal r.dir ≤ 0 ∧
    ((Sphere.record s r root).normal).length = 1 := by
  have hfront : (Sphere.record s r root).front_face =
      if dot r.dir ((r.at root - s.center) / s.radius) < 0 then true else false := rfl
  have hnormal : (Sphere.record s r root).normal =
      if dot r.dir ((r.at root - s.center) / s.radius) < 0 then
        (r.at root - s.center) / s.radius
      else -((r.at root - s.center) / s.radius) := rfl
  have hpc : ((Sphere.record s r root).p - s.center) / s.radius =
      (r.at root - s.center) / s.radius := rfl
  have hls : ((r.at root - s.center) / s.radius).length_squared = 1 := by
    rw [Vec3.div_length_squared, sphere_root_on_sphere s r hdir hd0 root hroot]
    exact div_self (pow_ne_zero 2 hrad)
  by_cases hff : dot r.dir ((r.at root - s.center) / s.radius) < 0
  · refine ⟨?_, ?_, ?_, ?_, ?_⟩
    · rw [hpc, hfront, if_pos hff]
      simp [hff]
    · intro _
      rw [hnormal, if_pos hff, hpc]
    · intro hcontra
      rw [hfront, if_pos hff] at hcontra
      simp at hcontra
    · rw [hnormal, if_pos hff, dot_comm]
      exact le_of_lt hff
    · unfold Vec3.length
      rw [hnormal, if_pos hff, hls, Real.sqrt_one]
  · refine ⟨?_, ?_, ?_, ?_, ?_⟩
    · rw [hpc, hfront, if_neg hff]
      simp [hff]
    · intro hcontra
      rw [hfront, if_neg hff] at hcontra
      simp at hcontra
    · intro _
      rw [hnormal, if_neg hff, hpc]
    · rw [hnormal, if_neg hff, dot_neg_left]
      apply neg_nonpos_of_nonneg
      rw [dot_comm]
      exact not_lt.mp hff
    · unfold Vec3.length
      rw [hnormal, if_neg hff, Vec3.neg_length_squared, hls, Real.sqrt_one]

/-- Claim C3 (amended): every `HitRecord` produced by `Sphere::hit` for a
sphere of nonzero radius and a ray with nonzero direction has `front_face`
true exactly when `dot(direction, outward_normal) < 0`, stores the outward
normal `(p - center)/radius` when front-facing and its negation otherwise,
satisfies `dot(normal, direction) ≤ 0`, and the stored normal has unit
length. -/
theorem sphere_hit_record_oriented_unit (s : Sphere) (r : Ray) (I : Interval)
    (hdir : r.dir ≠ Vec3.new) (hrad : s.radius ≠ 0) (rec : HitRecord)
    (h : Sphere.hit s r I = some rec) :
    (rec.front_face = true ↔ dot r.dir ((rec.p - s.center) / s.radius) < 0) ∧
    (rec.front_face = true → rec.normal = (rec.p - s.center) / s.radius) ∧
    (rec.front_face = false → rec.normal = -((rec.p - s.center) / s.radius)) ∧
    dot rec.normal r.dir ≤ 0 ∧
    rec.normal.length = 1 := by
  obtain ⟨hd0, hcase⟩ := sphere_hit_some_elim s r I rec h
  rcases hcase with ⟨hrec, _⟩ | ⟨hrec, _⟩
  · subst hrec
    exact sphere_record_oriented_unit s r hdir hrad hd0 _ (Or.inl rfl)
  · subst hrec
    exact sphere_record_oriented_unit s r hdir hrad hd0 _ (Or.inr rfl)

/-! ### Concrete scenes for the sphere witnesses and counterexample -/

/-- A gray diffuse material for the concrete examples. -/
def demoMat : Material := Material.Lambertian ⟨⟨0.5, 0.5, 0.5⟩⟩

/-- The unit sphere at the origin. -/
def demoSphere : Sphere := ⟨⟨0, 0, 0⟩, 1, demoMat⟩

/-- A ray from `(3,0,0)` aimed at the origin. -/
def demoRay : Ray := ⟨⟨3, 0, 0⟩, ⟨-1, 0, 0⟩⟩

/-- The interval from `0` to `10`. -/
def demoI : Interval := ⟨((0 : ℝ) : EReal), ((10 : ℝ) : EReal)⟩

theorem demoRay_dir_ne : demoRay.dir ≠ Vec3.new := by
  intro hcontra
  have hx := congrArg Vec3.x hcontra
  simp [demoRay, Vec3.new] at hx

theorem demo_disc : Sphere.disc demoSphere demoRay = 1 := by
  unfold Sphere.disc Sphere.halfB Sphere.aCoef Sphere.cCoef demoSphere demoRay
  simp [dot, Vec3.length_squared]
  norm_num

theorem demo_root1 : Sphere.root1 demoSphere demoRay = 2 := by
  unfold Sphere.root1
  rw [show Sphere.sqrtd demoSphere demoRay = 1 by
    unfold Sphere.sqrtd; rw [demo_disc, Real.sqrt_one]]
  unfold Sphere.halfB Sphere.aCoef demoSphere demoRay
  simp [dot, Vec3.length_squared]
  norm_num

theorem demo_surrounds :
    Interval.surrounds demoI ↑(Sphere.root1 demoSphere demoRay) := by
  rw [demo_root1]
  constructor
  · show ((0 : ℝ) : EReal) < ((2 : ℝ) : EReal)
    rw [EReal.coe_lt_coe_iff]; norm_num
  · show ((2 : ℝ) : EReal) < ((10 : ℝ) : EReal)
    rw [EReal.coe_lt_coe_iff]; norm_num

/-- Claim C4, witness: the theorem applied to the unit sphere and the ray from
`(3,0,0)` toward the origin, whose nearer root `t = 2` is accepted. -/
theorem sphere_hit_root_selection_app :
    demoRay.dir ≠ Vec3.new ∧
      Sphere.hit demoSphere demoRay demoI =
        some (Sphere.record demoSphere demoRay (Sphere.root1 demoSphere demoRay)) :=
  ⟨demoRay_dir_ne,
    (sphere_hit_root_selection demoSphere demoRay demoI demoRay_dir_ne).2.2.1
      (by rw [demo_disc]; norm_num) demo_surrounds⟩

/-- Claim C3, witness: the record produced for the unit sphere by the ray from
`(3,0,0)` has a unit normal. -/
theorem sphere_hit_record_oriented_unit_app :
    demoRay.dir ≠ Vec3.new ∧ demoSphere.radius ≠ 0 ∧
      Sphere.hit demoSphere demoRay demoI =
        some (Sphere.record demoSphere demoRay (Sphere.root1 demoSphere demoRay)) ∧
      (Sphere.record demoSphere demoRay (Sphere.root1 demoSphere demoRay)).normal.length = 1 := by
  have hrad : demoSphere.radius ≠ 0 := by norm_num [demoSphere]
  have hhit : Sphere.hit demoSphere demoRay demoI =
      some (Sphere.record demoSphere demoRay (Sphere.root1 demoSphere demoRay)) := by
    unfold Sphere.hit
    rw [if_neg (by rw [demo_disc]; norm_num), if_pos demo_surrounds]
  exact ⟨demoRay_dir_ne, hrad, hhit,
    (sphere_hit_record_oriented_unit demoSphere demoRay demoI demoRay_dir_ne hrad _
      hhit).2.2.2.2⟩

/-- A degenerate sphere of radius `0` at the origin. -/
def flatSphere : Sphere := ⟨⟨0, 0, 0⟩, 0, demoMat⟩

/-- A ray from `(2,0,0)` aimed at the origin. -/
def flatRay : Ray := ⟨⟨2, 0, 0⟩, ⟨-1, 0, 0⟩⟩

/-- The interval from `1` to `3`. -/
def flatI : Interval := ⟨((1 : ℝ) : EReal), ((3 : ℝ) : EReal)⟩

theorem flat_disc : Sphere.disc flatSphere flatRay = 0 := by
  unfold Sphere.disc Sphere.halfB Sphere.aCoef Sphere.cCoef flatSphere flatRay
  simp [dot, Vec3.length_squared]
  norm_num

theorem flat_root1 : Sphere.root1 flatSphere flatRay = 2 := by
  unfold Sphere.root1
  rw [show Sphere.sqrtd flatSphere flatRay = 0 by
    unfold Sphere.sqrtd; rw [flat_disc, Real.sqrt_zero]]
  unfold Sphere.halfB Sphere.aCoef flatSphere flatRay
  norm_num [dot, Vec3.length_squared]

/-- Claim C3, counterexample: for a sphere of radius `0` the record returned
by `Sphere::hit` (here at `t = 2`, strictly inside the interval from 1 to 3)
stores a normal of length `0`, not unit length.  (In the running program the
division `(p - center)/0.0` makes this normal NaN — likewise not of unit
length; the real-valued model renders it as the zero vector.) -/
theorem sphere_hit_zero_radius_normal_not_unit :
    ((Sphere.hit flatSphere flatRay flatI).map fun rec => rec.normal.length) =
        some 0 ∧
      (0 : ℝ) ≠ 1 := by
  have hsur : Interval.surrounds flatI ↑(Sphere.root1 flatSphere flatRay) := by
    rw [flat_root1]
    constructor
    · show ((1 : ℝ) : EReal) < ((2 : ℝ) : EReal)
      rw [EReal.coe_lt_coe_iff]; norm_num
    · show ((2 : ℝ) : EReal) < ((3 : ℝ) : EReal)
      rw [EReal.coe_lt_coe_iff]; norm_num
  have hhit : Sphere.hit flatSphere flatRay flatI =
      some (Sphere.record flatSphere flatRay (Sphere.root1 flatSphere flatRay)) := by
    unfold Sphere.hit
    rw [if_neg (by rw [flat_disc]; norm_num), if_pos hsur]
  have hdotz :
      ¬ dot flatRay.dir ((flatRay.at 2 - flatSphere.center) / flatSphere.radius) < 0 := by
    unfold flatRay flatSphere Ray.at dot
    norm_num
  have hnorm : (Sphere.record flatSphere flatRay 2).normal =
      -((flatRay.at 2 - flatSphere.center) / flatSphere.radius) := by
    have hn : (Sphere.record flatSphere flatRay 2).normal =
        if dot flatRay.dir ((flatRay.at 2 - flatSphere.center) / flatSphere.radius) < 0 then
          (flatRay.at 2 - flatSphere.center) / flatSphere.radius
        else -((flatRay.at 2 - flatSphere.center) / flatSphere.radius) := rfl
    rw [hn, if_neg hdotz]
  have hlen : (Sphere.record flatSphere flatRay 2).normal.length = 0 := by
    rw [hnorm]
    unfold Vec3.length
    rw [show (-((flatRay.at 2 - flatSphere.center) / flatSphere.radius)).length_squared = 0 by
      unfold flatRay flatSphere Ray.at Vec3.length_squared
      norm_num]
    exact Real.sqrt_zero
  refine ⟨?_, by norm_num⟩
  rw [hhit, flat_root1]
  simp only [Option.map_some']
  rw [hlen]

/-! ### Claim C2: `HittableList::hit` returns the globally nearest valid hit

A boxed surface is an arbitrary `HitFun`; the `Hittable` contract of the spec
("must return the nearest valid intersection within the interval, or nothing")
is expressed relative to a predicate `g` describing the surface's geometric
hit times for the given ray. -/

/-- A hit function is sound for geometry `g`: any returned record's `t` is
strictly surrounded by the queried interval and is a geometric hit time. -/
def Sound (r : Ray) (f : HitFun) (g : ℝ → Prop) : Prop :=
  ∀ I rec, f r I = some rec → I.surrounds ↑rec.t ∧ g rec.t

/-- A hit function returns the nearest hit: no geometric hit time strictly
inside the queried interval is closer than the returned one. -/
def Nearest (r : Ray) (f : HitFun) (g : ℝ → Prop) : Prop :=
  ∀ I rec, f r I = some rec → ∀ t0, g t0 → I.surrounds ↑t0 → rec.t ≤ t0

/-- A hit function is complete: it only returns `none` when no geometric hit
time is strictly inside the queried interval. -/
def Complete (r : Ray) (f : HitFun) (g : ℝ → Prop) : Prop :=
  ∀ I, f r I = none → ∀ t0, g t0 → ¬ I.surrounds ↑t0

/-- The `Hittable` contract for one surface. -/
def ProperFor (r : Ray) (f : HitFun) (g : ℝ → Prop) : Prop :=
  Sound r f g ∧ Nearest r f g ∧ Complete r f g

/-- Invariant of the `HittableList::hit` scan: starting from `closest_so_far`
and the best record so far, the loop returns a record no farther than
`closest_so_far`, coming from the best so far or from a scanned surface, and
minimal among all geometric hit times of the scanned surfaces that lie in
`(tmin, closest_so_far)`; it returns `none` only if it started with `none` and
no scanned surface has a geometric hit time in `(tmin, closest_so_far)`. -/
theorem hitLoop_spec (r : Ray) (tmin : EReal) :
    ∀ (ps : List (HitFun × (ℝ → Prop))),
      (∀ p ∈ ps, ProperFor r p.1 p.2) →
      ∀ (closest : EReal) (best : Option HitRecord),
        (∀ rec0, best = some rec0 → (↑rec0.t : EReal) ≤ closest) →
        ((∀ rec, hitLoop r tmin (ps.map Prod.fst) closest best = some rec →
            (↑rec.t : EReal) ≤ closest ∧
            (best = some rec ∨
              (∃ p ∈ ps, p.2 rec.t ∧ tmin < (↑rec.t : EReal) ∧
                (↑rec.t : EReal) < closest)) ∧
            (∀ t0 : ℝ, (∃ p ∈ ps, p.2 t0) → tmin < (↑t0 : EReal) →
              (↑t0 : EReal) < closest → rec.t ≤ t0)) ∧
          (hitLoop r tmin (ps.map Prod.fst) closest best = none →
            best = none ∧
            ∀ t0 : ℝ, (∃ p ∈ ps, p.2 t0) →
              ¬ (tmin < (↑t0 : EReal) ∧ (↑t0 : EReal) < closest))) := by
  intro ps
  induction ps with
  | nil =>
    intro _ closest best hpre
    constructor
    · intro rec hres
      simp only [List.map_nil, hitLoop] at hres
      refine ⟨hpre rec hres, Or.inl hres, ?_⟩
      rintro t0 ⟨p, hpmem, -⟩
      exact absurd hpmem (List.not_mem_nil p)
    · intro hres
      simp only [List.map_nil, hitLoop] at hres
      refine ⟨hres, ?_⟩
      rintro t0 ⟨p, hpmem, -⟩
      exact absurd hpmem (List.not_mem_nil p)
  | cons hd tl ih =>
    intro hp closest best hpre
    obtain ⟨f, g⟩ := hd
    have hhd : ProperFor r f g := hp _ (List.mem_cons_self _ _)
    have htl : ∀ p ∈ tl, ProperFor r p.1 p.2 :=
      fun p hp' => hp p (List.mem_cons_of_mem _ hp')
    cases hf : f r (Interval.mk tmin closest) with
    | some rec1 =>
      obtain ⟨hs1, hg1⟩ := hhd.1 _ _ hf
      have hs1a : tmin < (↑rec1.t : EReal) := hs1.1
      have hs1b : (↑rec1.t : EReal) < closest := hs1.2
      have hstep : hitLoop r tmin (((f, g) :: tl).map Prod.fst) closest best =
          hitLoop r tmin (tl.map Prod.fst) (↑rec1.t) (some rec1) := by
        simp only [List.map_cons, hitLoop, hf]
      have ih' := ih htl (↑rec1.t) (some rec1)
        (fun rec0 h0 => by rw [Option.some.inj h0])
      constructor
      · intro rec hres
        rw [hstep] at hres
        obtain ⟨hle, hdisj, hmin⟩ := ih'.1 rec hres
        refine ⟨le_trans hle (le_of_lt hs1b), ?_, ?_⟩
        · rcases hdisj with heq | ⟨p, hpmem, hgp, hlo, hhi⟩
          · have heq1 : rec1 = rec := Option.some.inj heq
            subst heq1
            exact Or.inr ⟨(f, g), List.mem_cons_self _ _, hg1, hs1a, hs1b⟩
          · exact Or.inr ⟨p, List.mem_cons_of_mem _ hpmem, hgp, hlo,
              lt_trans hhi hs1b⟩
        · rintro t0 ⟨q, hqmem, hgq⟩ hlo hhi
          rcases List.mem_cons.mp hqmem with hq | hq
          · subst hq
            have hnear := hhd.2.1 _ _ hf t0 hgq ⟨hlo, hhi⟩
            exact le_trans (EReal.coe_le_coe_iff.mp hle) hnear
          · by_cases hcmp : (↑t0 : EReal) < (↑rec1.t : EReal)
            · exact hmin t0 ⟨q, hq, hgq⟩ hlo hcmp
            · exact le_trans (EReal.coe_le_coe_iff.mp hle)
                (EReal.coe_le_coe_iff.mp (not_lt.mp hcmp))
      · intro hres
        rw [hstep] at hres
        obtain ⟨hbest, -⟩ := ih'.2 hres
        exact absurd hbest (by simp)
    | none =>
      have hcomp := hhd.2.2 _ hf
      have ih' := ih htl closest best hpre
      have hstep : hitLoop r tmin (((f, g) :: tl).map Prod.fst) closest best =
          hitLoop r tmin (tl.map Prod.fst) closest best := by
        simp only [List.map_cons, hitLoop, hf]
      constructor
      · intro rec hres
        rw [hstep] at hres
        obtain ⟨hle, hdisj, hmin⟩ := ih'.1 rec hres
        refine ⟨hle, ?_, ?_⟩
        · rcases hdisj with heq | ⟨p, hpmem, hrest⟩
          · exact Or.inl heq
          · exact Or.inr ⟨p, List.mem_cons_of_mem _ hpmem, hrest⟩
        · rintro t0 ⟨q, hqmem, hgq⟩ hlo hhi
          rcases List.mem_cons.mp hqmem with hq | hq
          · subst hq
            exact absurd ⟨hlo, hhi⟩ (hcomp t0 hgq)
          · exact hmin t0 ⟨q, hq, hgq⟩ hlo hhi
      · intro hres
        rw [hstep] at hres
        obtain ⟨hbest, hnone⟩ := ih'.2 hres
        refine ⟨hbest, ?_⟩
        rintro t0 ⟨q, hqmem, hgq⟩
        rcases List.mem_cons.mp hqmem with hq | hq
        · subst hq
          exact hcomp t0 hgq
        · exact hnone t0 ⟨q, hq, hgq⟩

/-- Claim C2: when every contained surface obeys the `Hittable` contract,
`HittableList::hit` returns `Some` exactly when some surface has a geometric
hit time strictly inside the interval; the returned record's `t` is such a
time and is minimal among all of them (in particular no surface contributes a
hit at or beyond the closest `t` found so far). -/
theorem hittableList_hit_nearest (r : Ray) (ps : List (HitFun × (ℝ → Prop)))
    (I : Interval) (hp : ∀ p ∈ ps, ProperFor r p.1 p.2) :
    (∀ rec, HittableList.hit ⟨ps.map Prod.fst⟩ r I = some rec →
        I.surrounds ↑rec.t ∧ (∃ p ∈ ps, p.2 rec.t) ∧
          ∀ t0 : ℝ, (∃ p ∈ ps, p.2 t0) → I.surrounds ↑t0 → rec.t ≤ t0) ∧
      (HittableList.hit ⟨ps.map Prod.fst⟩ r I = none →
        ∀ t0 : ℝ, (∃ p ∈ ps, p.2 t0) → ¬ I.surrounds ↑t0) := by
  have h := hitLoop_spec r I.min ps hp I.max none
    (fun rec0 h0 => absurd h0 (by simp))
  unfold HittableList.hit
  constructor
  · intro rec hres
    obtain ⟨-, hdisj, hmin⟩ := h.1 rec hres
    rcases hdisj with heq | ⟨p, hpmem, hgp, hlo, hhi⟩
    · exact absurd heq (by simp)
    · exact ⟨⟨hlo, hhi⟩, ⟨p, hpmem, hgp⟩,
        fun t0 hex hsur => hmin t0 hex hsur.1 hsur.2⟩
  · intro hres
    obtain ⟨-, hnone⟩ := h.2 hres
    intro t0 hex hsur
    exact hnone t0 hex ⟨hsur.1, hsur.2⟩

/-- A concrete hit record at time `2` for the demonstration surface. -/
def demoHitRec : HitRecord :=
  { p := ⟨0, 0, 0⟩, normal := ⟨0, 0, 1⟩, t := 2, front_face := true, mat := demoMat }

/-- A demonstration surface whose only geometric hit time is `2`: it reports
that hit whenever the queried interval strictly surrounds `2`. -/
def demoObj : HitFun :=
  fun _ i => if i.surrounds (((2 : ℝ)) : EReal) then some demoHitRec else none

/-- The demonstration surface obeys the `Hittable` contract for the geometry
with the single hit time `2`. -/
theorem demoObj_proper (r : Ray) : ProperFor r demoObj (fun t => t = 2) := by
  refine ⟨?_, ?_, ?_⟩
  · intro I rec h
    unfold demoObj at h
    split_ifs at h with hs
    have hrec : demoHitRec = rec := Option.some.inj h
    subst hrec
    exact ⟨hs, rfl⟩
  · intro I rec h t0 hg hsur
    unfold demoObj at h
    split_ifs at h with hs
    have hrec : demoHitRec = rec := Option.some.inj h
    subst hrec
    rw [hg]
    exact le_refl _
  · intro I h t0 hg hsur
    unfold demoObj at h
    split_ifs at h with hs
    subst hg
    exact hs hsur

/-- The singleton scene used by the claim C2 witness. -/
def demoPS : List (HitFun × (ℝ → Prop)) := [(demoObj, fun t => t = 2)]

/-- Claim C2, witness: the theorem applied to a singleton list containing the
demonstration surface, over the interval from 0 to 10. -/
theorem hittableList_hit_nearest_app :
    (∀ p ∈ demoPS, ProperFor demoRay p.1 p.2) ∧
      ((∀ rec, HittableList.hit ⟨demoPS.map Prod.fst⟩ demoRay demoI = some rec →
          demoI.surrounds ↑rec.t ∧ (∃ p ∈ demoPS, p.2 rec.t) ∧
            ∀ t0 : ℝ, (∃ p ∈ demoPS, p.2 t0) → demoI.surrounds ↑t0 → rec.t ≤ t0) ∧
        (HittableList.hit ⟨demoPS.map Prod.fst⟩ demoRay demoI = none →
          ∀ t0 : ℝ, (∃ p ∈ demoPS, p.2 t0) → ¬ demoI.surrounds ↑t0)) := by
  have hp : ∀ p ∈ demoPS, ProperFor demoRay p.1 p.2 := by
    intro p hpmem
    unfold demoPS at hpmem
    rw [List.mem_singleton] at hpmem
    subst hpmem
    exact demoObj_proper demoRay
  exact ⟨hp, hittableList_hit_nearest demoRay demoPS demoI hp⟩

/-! ### Claim C9: the rejection sampler for the unit sphere -/

/-- Claim C9, amended: for every draw sequence (with some accepted draw), the
value `random_in_unit_sphere` passes to normalization is the first draw whose
squared length is strictly below `1`, and every earlier draw is rejected
because its squared length is at least `1`.  The zero vector is not rejected:
a zero draw is accepted, so the value passed to normalization can be zero. -/
theorem random_in_unit_sphere_first_accepted (draws : ℕ → Vec3)
    (h : ∃ n, vecAccept (draws n)) :
    vecAccept (random_in_unit_sphere draws h) ∧
      random_in_unit_sphere draws h = draws (Nat.find h) ∧
      ∀ m, m < Nat.find h → ¬ vecAccept (draws m) := by
  exact ⟨Nat.find_spec h, rfl, fun m hm => Nat.find_min h hm⟩

/-- The draw sequence whose first draw is rejected (squared length `4`) and
whose second draw `(1/2, 0, 0)` is accepted. -/
def twoDraws : ℕ → Vec3 := fun n => if n = 0 then ⟨2, 0, 0⟩ else ⟨1 / 2, 0, 0⟩

theorem twoDraws_ex : ∃ n, vecAccept (twoDraws n) := by
  refine ⟨1, ?_⟩
  unfold twoDraws vecAccept Vec3.length_squared
  norm_num

/-- Claim C9, witness: the amended theorem applied to the two-draw sequence. -/
theorem random_in_unit_sphere_first_accepted_app :
    (∃ n, vecAccept (twoDraws n)) ∧
      (vecAccept (random_in_unit_sphere twoDraws twoDraws_ex) ∧
        random_in_unit_sphere twoDraws twoDraws_ex = twoDraws (Nat.find twoDraws_ex) ∧
        ∀ m, m < Nat.find twoDraws_ex → ¬ vecAccept (twoDraws m)) :=
  ⟨twoDraws_ex, random_in_unit_sphere_first_accepted twoDraws twoDraws_ex⟩

/-- The all-zero draw sequence. -/
def zeroDraws : ℕ → Vec3 := fun _ => Vec3.new

theorem zeroDraws_ex : ∃ n, vecAccept (zeroDraws n) := by
  refine ⟨0, ?_⟩
  unfold zeroDraws vecAccept Vec3.length_squared Vec3.new
  norm_num

/-- Claim C9, counterexample: the loop does not reject the zero vector — on
the all-zero draw sequence the loop accepts the very first draw (its squared
length `0` passes the `< 1` test), so the value passed to normalization is the
zero vector, whose squared length is not nonzero. -/
theorem random_in_unit_sphere_accepts_zero :
    random_in_unit_sphere zeroDraws zeroDraws_ex = Vec3.new ∧
      (random_in_unit_sphere zeroDraws zeroDraws_ex).length_squared = 0 := by
  constructor
  · rfl
  · show (Vec3.new).length_squared = 0
    unfold Vec3.new Vec3.length_squared
    norm_num

end Tracer

end
